import Mathlib

/-!
Shallow embedding of the EasyDeL training-state core
(`src/lib/python/EasyDel/etils/easystate.py` and
`src/lib/python/EasyDel/trainer/vision_causal_language_model_trainer.py`).

Modelling conventions:
* Python `str` is modelled as `List Char` (`PyStr`); string literals are
  written `"..."​.data`.
* Python dictionaries are insertion-ordered association lists with unique
  keys (`Dict`); in-place mutation is modelled by explicit state passing,
  and a function that mutates its argument returns the final value of that
  argument (in Python the caller sees it through aliasing).
* Primitive dictionary values are embedded by `PyVal` (int, bool, str);
  this is the value universe the verified claims quantify over.
* Numeric array leaves are embedded as integers (`PTree.leaf`); field-wise
  array addition becomes integer addition.  Pytree key order is canonical
  (the same fixed order on both sides of a `tree_map`).
* Fallible code returns `Option`/`Except`; raised Python exceptions are
  the error values of `PyErr`.
-/

/-- Python strings, as lists of characters. -/
abbrev PyStr := List Char

/-- Primitive Python values that appear in the hyperparameter/config
dictionaries of `easystate.py`. -/
inductive PyVal where
  | int (n : Int)
  | bool (b : Bool)
  | str (s : PyStr)
deriving DecidableEq, Repr, Inhabited

/-- `isinstance(val, (int, bool))`, the guard used by `safe_dict`,
`EasyDelState.create` and the `module_config` loop. -/
def PyVal.isIntOrBool : PyVal → Bool
  | .int _ => true
  | .bool _ => true
  | .str _ => false

/-- Whether a value is a Python `str`. -/
def PyVal.isStr : PyVal → Bool
  | .int _ => false
  | .bool _ => false
  | .str _ => true

/-- Python `str(val)` as interpolated by the f-string `f"{k}_is_{val}"`. -/
def PyVal.pystr : PyVal → PyStr
  | .int n => (toString n).data
  | .bool b => if b then ("True").data else ("False").data
  | .str s => s

/-- Python `dict` with `PyVal` values: insertion-ordered association list
with (by the `dict` invariant) unique keys. -/
abbrev Dict := List (PyStr × PyVal)

/-- `list(d.keys())`. -/
def Dict.keys (d : Dict) : List PyStr := d.map Prod.fst

/-- `k in d`. -/
def Dict.containsKey (d : Dict) (k : PyStr) : Bool := d.keys.contains k

/-- `d.pop(k)`, dropping the entry for `k` (order of the rest preserved). -/
def Dict.erase (d : Dict) (k : PyStr) : Dict := d.filter (fun kv => kv.1 ≠ k)

/-- `d[k] = v`: update in place if `k` is present, else append. -/
def Dict.set (d : Dict) (k : PyStr) (v : PyVal) : Dict :=
  if d.containsKey k then d.map (fun kv => if kv.1 = k then (k, v) else kv)
  else d ++ [(k, v)]

/-- Python `k.split("_is_")`: leftmost, non-overlapping occurrences of the
four-character separator delimit the chunks (specialised to this
separator so that the recursion is structural and computes). -/
def splitIs : List Char → List (List Char)
  | '_' :: 'i' :: 's' :: '_' :: rest => [] :: splitIs rest
  | c :: rest =>
    match splitIs rest with
    | chunk :: chunks => (c :: chunk) :: chunks
    | [] => [[c]]
  | [] => [[]]

/-- Python `k.split("model_type_is_")`, specialised like `splitIs`. -/
def splitModelType : List Char → List (List Char)
  | 'm' :: 'o' :: 'd' :: 'e' :: 'l' :: '_' :: 't' :: 'y' :: 'p' :: 'e' :: '_' :: 'i' :: 's' :: '_' :: rest =>
    [] :: splitModelType rest
  | c :: rest =>
    match splitModelType rest with
    | chunk :: chunks => (c :: chunk) :: chunks
    | [] => [[c]]
  | [] => [[]]

/-- The literal separator `"_is_"` of the key-encoding scheme. -/
def sepIs : PyStr := "_is_".data

/-- The encoded key `f"{k}_is_{val}"`. -/
def encKey (k : PyStr) (v : PyVal) : PyStr := k ++ sepIs ++ v.pystr

/-- One iteration of the `safe_dict` loop body
(`easystate.py` lines 491-495): for snapshot key `k`, if the stored value
is not an int/bool, pop `k` and assign `d[f"{k}_is_{val}"] = 1`. -/
def safeStep (d : Dict) (k : PyStr) : Dict :=
  match d.lookup k with
  | none => d
  | some v =>
    if v.isIntOrBool then d
    else (d.erase k).set (encKey k v) (PyVal.int 1)

/-- `EasyDelState.safe_dict` (`easystate.py` lines 489-496). -/
def safe_dict (d : Dict) : Dict := (Dict.keys d).foldl safeStep d

/-- One iteration of the `unsafe_dict` loop body
(`easystate.py` lines 501-506): `key, val = k.split("_is_")` succeeds only
when the split has exactly two parts; otherwise the bare `except` drops
the key. -/
def unsafeStep (r : Dict) (k : PyStr) : Dict :=
  match splitIs k with
  | [key, val] => r.set key (PyVal.str val)
  | _ => r

/-- `EasyDelState.unsafe_dict` (`easystate.py` lines 498-507).  Only the
keys of the input are consulted. -/
def unsafe_dict (d : Dict) : Dict := (Dict.keys d).foldl unsafeStep []

/-- Parameter / gradient / optimizer-state pytrees: string-keyed nested
mappings with numeric leaves (arrays embedded as integers).  Key order is
canonical. -/
inductive PTree where
  | leaf (v : Int)
  | node (children : List (PyStr × PTree))
deriving Repr

mutual

/-- Boolean structural equality on pytrees. -/
def PTree.beq : PTree → PTree → Bool
  | .leaf a, .leaf b => a == b
  | .node cs, .node cs' => PTree.beqL cs cs'
  | _, _ => false

/-- Boolean structural equality on pytree child lists. -/
def PTree.beqL : List (PyStr × PTree) → List (PyStr × PTree) → Bool
  | [], [] => true
  | (k, t) :: ts, (k', t') :: ts' => k == k' && PTree.beq t t' && PTree.beqL ts ts'
  | _, _ => false

end

mutual

theorem PTree.beq_iff : ∀ a b : PTree, PTree.beq a b = true ↔ a = b
  | .leaf a, .leaf b => by simp [PTree.beq]
  | .leaf _, .node _ => by simp [PTree.beq]
  | .node _, .leaf _ => by simp [PTree.beq]
  | .node cs, .node cs' => by
    have h := PTree.beqL_iff cs cs'
    simp [PTree.beq, h]

theorem PTree.beqL_iff :
    ∀ a b : List (PyStr × PTree), PTree.beqL a b = true ↔ a = b
  | [], [] => by simp [PTree.beqL]
  | [], _ :: _ => by simp [PTree.beqL]
  | _ :: _, [] => by simp [PTree.beqL]
  | (k, t) :: ts, (k', t') :: ts' => by
    have h1 := PTree.beq_iff t t'
    have h2 := PTree.beqL_iff ts ts'
    simp [PTree.beqL, h1, h2, Prod.ext_iff, and_assoc]

end

instance : DecidableEq PTree := fun a b =>
  decidable_of_iff (PTree.beq a b = true) (PTree.beq_iff a b)

/-- `flax.linen.fp8_ops.OVERWRITE_WITH_GRADIENT`. -/
def owg : PyStr := "_overwrite_with_gradient".data

/-- The literal key `"params"`. -/
def paramsKey : PyStr := "params".data

/-- Python `k in tree` for a dict-valued pytree (top-level key test). -/
def PTree.hasKey : PTree → PyStr → Bool
  | .leaf _, _ => false
  | .node cs, k => cs.any (fun kv => kv.1 = k)

/-- Python `tree[k]`; `none` models the `KeyError` on a missing key. -/
def PTree.getKey : PTree → PyStr → Option PTree
  | .leaf _, _ => none
  | .node cs, k => cs.lookup k

mutual

/-- `optax.apply_updates(params, updates)`: field-wise numeric addition;
`none` models the fatal error on mismatched tree topology. -/
def applyUpdates : PTree → PTree → Option PTree
  | .leaf p, .leaf u => some (.leaf (p + u))
  | .node cs, .node cs' => (applyUpdatesL cs cs').map .node
  | _, _ => none

/-- `applyUpdates` on child lists (same keys in the same order). -/
def applyUpdatesL :
    List (PyStr × PTree) → List (PyStr × PTree) → Option (List (PyStr × PTree))
  | [], [] => some []
  | (k, p) :: ps, (k', u) :: us =>
    if k = k' then
      match applyUpdates p u, applyUpdatesL ps us with
      | some t, some ts => some ((k, t) :: ts)
      | _, _ => none
    else none
  | _, _ => none

end

/-- The optimizer/scheduler collaborator (`optax.GradientTransformation`):
`init(params) -> opt_state` and
`update(grads, opt_state, params) -> (updates, opt_state')`. -/
structure GradientTransformation where
  init : PTree → PTree
  update : PTree → Option PTree → PTree → PTree × Option PTree

/-- Opaque payload of an explicit partition-rule sequence. -/
abbrev RulesT := List (PyStr × PyStr)

/-- Opaque payload of a resolved partition-specification tree. -/
abbrev SpecsT := List (PyStr × PyStr)

/-- Opaque device-mesh handle (the `with mesh:` context is a no-op in the
value model). -/
abbrev MeshT := Unit

/-- Opaque dtype token (`fjformer.get_dtype` is modelled as the
identity on this token). -/
abbrev DtypeT := PyStr

/-- A pytree of per-leaf shard functions, zipped against `PTree` by
`jax.tree_util.tree_map(lambda f, p: f(p), shard_fns, params)`. -/
inductive FTree where
  | leaf (f : Int → Int)
  | node (children : List (PyStr × FTree))

mutual

/-- `tree_map(lambda f, p: f(p), fns, params)`; `none` models the fatal
error on mismatched topology. -/
def applyFns : FTree → PTree → Option PTree
  | .leaf f, .leaf p => some (.leaf (f p))
  | .node fs, .node ps => (applyFnsL fs ps).map .node
  | _, _ => none

/-- `applyFns` on child lists. -/
def applyFnsL :
    List (PyStr × FTree) → List (PyStr × PTree) → Option (List (PyStr × PTree))
  | [], [] => some []
  | (k, f) :: fs, (k', p) :: ps =>
    if k = k' then
      match applyFns f p, applyFnsL fs ps with
      | some t, some ts => some ((k, t) :: ts)
      | _, _ => none
    else none
  | _, _ => none

end

/-- `EasyDelPretrainedConfig` as the state sees it: its `__dict__`
(mutated by `EasyDelState.create`) plus the two methods `shard_params`
consults. -/
structure ModuleConfig where
  attrs : Dict
  partitionRules : Bool → RulesT
  jaxMesh : MeshT

/-- Raised Python exceptions, by kind. -/
inductive PyErr where
  | easyDelRuntimeErrorShardSource
  | easyDelRuntimeErrorOptimizerFlags
  | attributeError
  | valueError
  | typeError
  | assertionError
  | unboundLocalError
  | zeroDivisionError
deriving DecidableEq, Repr

/-- `EasyDelState` (`easystate.py` lines 16-26).  The opaque
`module`/`apply_fn` handles are embedded as natural-number tokens. -/
structure EasyDelState where
  step : Nat
  module : Option Nat
  module_config : Option ModuleConfig
  module_config_args : Option Dict
  apply_fn : Nat
  params : PTree
  tx : GradientTransformation
  opt_state : Option PTree
  tx_init : Option Dict
  hyperparameters : Option Dict

/-- `EasyDelState.apply_gradients` (`easystate.py` lines 28-64), without
keyword overrides; `none` models the raised `KeyError`/shape errors. -/
def EasyDelState.apply_gradients (s : EasyDelState) (grads : PTree) :
    Option EasyDelState :=
  match
    (if grads.hasKey owg then
      match grads.getKey paramsKey, s.params.getKey paramsKey with
      | some g, some p => some (g, p)
      | _, _ => none
    else some (grads, s.params)) with
  | none => none
  | some (grads_with_opt, params_with_opt) =>
    let upd := s.tx.update grads_with_opt s.opt_state params_with_opt
    match applyUpdates params_with_opt upd.1 with
    | none => none
    | some new_params_with_opt =>
      (if grads.hasKey owg then
        match grads.getKey owg with
        | some g => some (PTree.node [(paramsKey, new_params_with_opt), (owg, g)])
        | none => none
      else some new_params_with_opt).map
        (fun new_params =>
          { s with step := s.step + 1, params := new_params, opt_state := upd.2 })

/-- The parameter subtree handed to the optimizer
(`easystate.py` lines 97-99 and 309-312):
`params['params'] if OVERWRITE_WITH_GRADIENT in params else params`. -/
def paramsWithOpt (params : PTree) : Option PTree :=
  if params.hasKey owg then params.getKey paramsKey else some params

/-- One iteration of the `module_config.__dict__` loop of
`EasyDelState.create` (`easystate.py` lines 113-117): for snapshot key
`k`, a non-int/bool attribute is popped from the config dict and
`hyperparameters[f"{k}_is_{val}"] = 1` is assigned. -/
def configStep (st : Dict × Dict) (k : PyStr) : Dict × Dict :=
  match st.1.lookup k with
  | none => st
  | some v =>
    if v.isIntOrBool then st
    else (st.1.erase k, st.2.set (encKey k v) (PyVal.int 1))

/-- The `module_config.__dict__` loop of `EasyDelState.create`
(`easystate.py` lines 112-117), over a snapshot of the attribute keys;
returns the final (config `__dict__`, hyperparameters) pair. -/
def configSplit (attrs hyper : Dict) : Dict × Dict :=
  (Dict.keys attrs).foldl configStep (attrs, hyper)

/-- The `tx_init` loop of `EasyDelState.create`
(`easystate.py` lines 119-124); its body is a verbatim copy of the
`safe_dict` loop body, so it is the same fold of `safeStep`. -/
def createTxInitLoop (d : Dict) : Dict :=
  (Dict.keys d).foldl safeStep d

/-- `EasyDelState.create` (`easystate.py` lines 66-137).  In-place
mutation of `tx_init`, `hyperparameters` and `module_config.__dict__` is
modelled by storing the final values in the returned state (the caller
aliases them).  `none` models a raised exception: the `KeyError` from
`params['params']`, or the `TypeError` from `hyperparameters[...] = 1`
when `hyperparameters` is `None`.  In the embedded value universe
{int, bool, str} the `module_config_args` comprehension (lines 102-111)
keeps exactly the int/bool values. -/
def EasyDelState.create (apply_fn : Nat) (params : PTree)
    (tx : GradientTransformation) (tx_init : Option Dict)
    (hyperparameters : Option Dict) (module : Option Nat)
    (module_config : Option ModuleConfig)
    (module_config_args : Option Dict) : Option EasyDelState :=
  match paramsWithOpt params with
  | none => none
  | some pwo =>
    let opt_state := tx.init pwo
    let module_config_args :=
      module_config_args.map (fun d => d.filter (fun kv => kv.2.isIntOrBool))
    let cfgStep : Option (Option ModuleConfig × Option Dict) :=
      match module_config with
      | none => some (none, hyperparameters)
      | some cfg =>
        if cfg.attrs.all (fun kv => kv.2.isIntOrBool) then
          some (some cfg, hyperparameters)
        else
          match hyperparameters with
          | none => none
          | some h =>
            let ah := configSplit cfg.attrs h
            some (some { cfg with attrs := ah.1 }, some ah.2)
    cfgStep.map (fun ch =>
      { step := 0
        apply_fn := apply_fn
        module := module
        params := params
        tx := tx
        opt_state := some opt_state
        tx_init := tx_init.map createTxInitLoop
        hyperparameters := ch.2
        module_config := ch.1
        module_config_args := module_config_args })

/-- `EasyDelState.get_model_type` (`easystate.py` lines 244-250): scan the
hyperparameters for keys starting with `"model_type_is_"`, keeping
`k.split("model_type_is_")[-1]` of the last match; `none` when no key
matches (the `model_type = None` initial value). -/
def get_model_type (h : Dict) : Option PyStr :=
  h.foldl
    (fun acc kv =>
      if ("model_type_is_".data).isPrefixOf kv.1 then
        some ((splitModelType kv.1).getLastD [])
      else acc)
    none

/-- The `elif` arm of `shard_params` (lines 461-470): when
`cond = (shard_fns is None and rules is not None) or module_config is not None`
holds, resolve the rule set (`rules or module_config.get_partition_rules(...)`,
with Python truthiness treating an empty `rules` as falsy) and build the
shard functions through `match_partition_rules`/`make_shard_and_gather_fns`
(abstracted as `g`); otherwise keep the explicitly passed `shard_fns`
(`None` there is unreachable and modelled as `attributeError`). -/
def shardFnsResolve (g : RulesT → FTree) (cond fsdp : Bool)
    (rules : Option RulesT) (cfgo : Option ModuleConfig)
    (sfns : Option FTree) : Except PyErr FTree :=
  if cond then
    Except.map g
      (match rules with
       | some r =>
         if r ≠ [] then .ok r
         else
           match cfgo with
           | some cfg => .ok (cfg.partitionRules fsdp)
           | none => .error .attributeError
       | none =>
         match cfgo with
         | some cfg => .ok (cfg.partitionRules fsdp)
         | none => .error .attributeError)
  else
    match sfns with
    | some f => .ok f
    | none => .error .attributeError

/-- Lines 471-472 of `shard_params`:
`if mesh is None: mesh = self.module_config.jax_mesh()` — an
`AttributeError` when `module_config` is also `None`. -/
def shardMesh (mesh : Option MeshT) (cfgo : Option ModuleConfig) :
    Except PyErr MeshT :=
  match mesh with
  | some m => .ok m
  | none =>
    match cfgo with
    | some cfg => .ok cfg.jaxMesh
    | none => .error .attributeError

/-- Lines 473-478 of `shard_params`: under the mesh context, replace the
parameters by the leaf-wise application of the resolved shard functions
(errors from the two resolutions propagate). -/
def shardTail (s : EasyDelState) (fns : Except PyErr FTree)
    (meshE : Except PyErr MeshT) : Except PyErr EasyDelState :=
  match fns with
  | .error e => .error e
  | .ok f =>
    match meshE with
    | .error e => .error e
    | .ok _m =>
      match applyFns f s.params with
      | some newParams => .ok { s with params := newParams }
      | none => .error .valueError

/-- `EasyDelState.shard_params` (`easystate.py` lines 448-478).  The
`fjformer` collaborators `match_partition_rules` and
`make_shard_and_gather_fns` are opaque inputs `mpr` and `mkfns`; the
`fjformer.get_dtype` conversion is the identity on the opaque dtype
token.  Error values: the explicit `EasyDelRuntimeError` when `shard_fns`,
`module_config` and `rules` are all absent; `attributeError` for the
`NoneType` dereferences (`self.module_config.get_partition_rules` /
`.jax_mesh()` when `module_config` is `None`, and the unreachable
`tree_map` over a `None` shard-function tree); `valueError` for a
`tree_map` topology mismatch. -/
def EasyDelState.shard_params (mpr : RulesT → PTree → SpecsT)
    (mkfns : SpecsT → DtypeT → FTree × FTree) (s : EasyDelState)
    (fully_sharded_data_parallel : Bool) (shard_fns : Option FTree)
    (dtype : DtypeT) (mesh : Option MeshT) (rules : Option RulesT) :
    Except PyErr EasyDelState :=
  if shard_fns.isNone && s.module_config.isNone && rules.isNone then
    .error .easyDelRuntimeErrorShardSource
  else
    shardTail s
      (shardFnsResolve (fun r => (mkfns (mpr r s.params) dtype).1)
        ((shard_fns.isNone && rules.isSome) || s.module_config.isSome)
        fully_sharded_data_parallel rules s.module_config shard_fns)
      (shardMesh mesh s.module_config)

/-- `EasyDelState.from_pretrained` (`easystate.py` lines 320-446),
shallowly: the conflicting-flags guard at lines 382-385 is translated
exactly; everything after the guard (model download, state construction,
optimizer-state init/free) is the opaque continuation `rest`. -/
def EasyDelState.from_pretrained (init_optimizer_state : Bool)
    (free_optimizer_state : Bool)
    (rest : Unit → Except PyErr EasyDelState) : Except PyErr EasyDelState :=
  if free_optimizer_state && init_optimizer_state then
    .error .easyDelRuntimeErrorOptimizerFlags
  else rest ()

/-! ### Trainer loop (`vision_causal_language_model_trainer.py`)

`VisionCausalLanguageModelTrainer.train` (lines 487-732) is modelled at
the granularity of its step loop.  Batches are opaque tokens; the pjit-ed
train-step function is an opaque input; wall-clock time is an oracle
`elapsed` giving the time after `n` completed train steps; the
asynchronous `KeyboardInterrupt` is modelled as arriving at the start of
iteration `interruptAt` of the flattened batch loop.  The metrics block
of the step arm (lines 597-648) is modelled for its control flow, which
is not benign: line 600 subtracts `self.arguments.step_start_point` from
`current_step` (a `TypeError` when `step_start_point` is `None`), line
605 divides by `total_roved_steps` (a `ZeroDivisionError` when the
current step equals `step_start_point`), and line 622 reads the local
`information_queries`, whose only assignment is at line 627 — inside the
`wandb` branch, after the dict literal — so the read raises
`UnboundLocalError` on the first executed train step.  These exceptions
are not `KeyboardInterrupt`/`EasyDelTimerError`, so the `except` clauses
at lines 672-685 do not catch them.  The numeric metric values
themselves, progress-bar output, memory tracking and the LoRA
(`rapture`) branches — disabled in the modelled configuration
(`rapture is None`) — are omitted. -/

structure TrainKnobs where
  num_train_epochs : Nat
  max_training_steps : Nat
  step_start_point : Option Nat
  training_time : Option Nat
  save_steps : Option Nat
  do_last_save : Bool
  do_eval : Bool
  dataloader_eval_avail : Bool
  wandb_on : Bool

/-- The two exceptions the `try` block of `train` catches
(lines 672-685): `KeyboardInterrupt` and `EasyDelTimerError`. -/
inductive TrainExc where
  | keyboardInterrupt
  | timerError
deriving DecidableEq, Repr

/-- Loop-carried state of `train`: the current sharded state, the
`current_step` counter, the number of completed train-step invocations
(drives the clock oracle), whether `filename` has been bound by a
`_save_state` call, and whether the local `information_queries` has been
bound (its only assignment is line 627). -/
structure LoopSt where
  state : EasyDelState
  current_step : Nat
  completed : Nat
  saved : Bool
  information_queries_bound : Bool

/-- Outcome of one iteration of the inner batch loop: fall through,
`break`, a caught exception (`KeyboardInterrupt`/`EasyDelTimerError`), or
an uncaught exception that propagates out of `train`. -/
inductive IterRes where
  | cont (st : LoopSt)
  | brk (st : LoopSt)
  | exc (st : LoopSt) (e : TrainExc)
  | fatal (st : LoopSt) (e : PyErr)

/-- How the `try` block of `train` ends: normal completion of the epoch
loop, an exception caught by the `except` clauses, or an uncaught
exception. -/
inductive LoopExit where
  | normal
  | caught (e : TrainExc)
  | fatal (e : PyErr)
deriving DecidableEq, Repr

/-- The `save_steps` checkpoint trigger (lines 654-671), reached at the
end of a non-`break` iteration; `rapture is None`, so `_save_state` runs
and binds `filename`.  (`save_steps = 0` would raise `ZeroDivisionError`
in Python; the model only covers non-zero values.) -/
def saveCheck (knobs : TrainKnobs) (st : LoopSt) : LoopSt :=
  match knobs.save_steps with
  | some n => if n ≠ 0 ∧ st.current_step % n = 0 then { st with saved := true } else st
  | none => st

/-- The `elif current_step < max_training_steps` arm (lines 556-651):
run the train step (line 565 updates `sharded_state`), then execute the
metrics block in program order — line 600 (`TypeError` when
`step_start_point` is `None`), line 605 (`ZeroDivisionError` when
`current_step == step_start_point`), line 622 (`UnboundLocalError` when
`information_queries` is unbound, i.e. always on the first executed
step), the `wandb` branch at lines 625-627 binding `information_queries`
— then raise `EasyDelTimerError` when over budget (lines 649-651), else
fall through to the checkpoint trigger; `else: break`. -/
def trainIterStep (step_fn : EasyDelState → Nat → EasyDelState)
    (knobs : TrainKnobs) (elapsed : Nat → Nat) (st : LoopSt) (b : Nat)
    (cs : Nat) : IterRes :=
  if cs < knobs.max_training_steps then
    let st' : LoopSt :=
      { st with
        state := step_fn st.state b
        current_step := cs
        completed := st.completed + 1 }
    match knobs.step_start_point with
    | none => .fatal st' .typeError
    | some ssp =>
      if cs = ssp then .fatal st' .zeroDivisionError
      else if st'.information_queries_bound = false then
        .fatal st' .unboundLocalError
      else
        let st'' :=
          if knobs.wandb_on then { st' with information_queries_bound := true }
          else st'
        match knobs.training_time with
        | some budget =>
          if elapsed st''.completed > budget then .exc st'' .timerError
          else .cont (saveCheck knobs st'')
        | none => .cont (saveCheck knobs st'')
  else .brk { st with current_step := cs }

/-- One iteration of the inner batch loop (lines 548-671): deliver a
pending interrupt, else advance `current_step`, then either skip (before
`step_start_point`), run the train step and possibly raise the timeout
(lines 649-651), or `break` once `max_training_steps` is reached. -/
def trainIterOnce (step_fn : EasyDelState → Nat → EasyDelState)
    (knobs : TrainKnobs) (elapsed : Nat → Nat) (interruptAt : Option Nat)
    (iterIdx : Nat) (st : LoopSt) (b : Nat) : IterRes :=
  if interruptAt = some iterIdx then .exc st .keyboardInterrupt
  else
    let cs := st.current_step + 1
    match knobs.step_start_point with
    | some ssp =>
      if ssp > cs then .cont (saveCheck knobs { st with current_step := cs })
      else trainIterStep step_fn knobs elapsed st b cs
    | none => trainIterStep step_fn knobs elapsed st b cs

/-- The inner `for batch in dataloader_train` loop; returns the next
global iteration index, the loop state, and how the loop ended. -/
def runBatches (step_fn : EasyDelState → Nat → EasyDelState)
    (knobs : TrainKnobs) (elapsed : Nat → Nat) (interruptAt : Option Nat) :
    List Nat → Nat → LoopSt → Nat × LoopSt × LoopExit
  | [], i, st => (i, st, .normal)
  | b :: bs, i, st =>
    match trainIterOnce step_fn knobs elapsed interruptAt i st b with
    | .cont st' => runBatches step_fn knobs elapsed interruptAt bs (i + 1) st'
    | .brk st' => (i + 1, st', .normal)
    | .exc st' e => (i + 1, st', .caught e)
    | .fatal st' e => (i + 1, st', .fatal e)

/-- The outer `for epoch in range(num_train_epochs)` loop. -/
def runEpochs (step_fn : EasyDelState → Nat → EasyDelState)
    (knobs : TrainKnobs) (elapsed : Nat → Nat) (interruptAt : Option Nat)
    (batches : List Nat) : Nat → Nat → LoopSt → Nat × LoopSt × LoopExit
  | 0, i, st => (i, st, .normal)
  | n + 1, i, st =>
    match runBatches step_fn knobs elapsed interruptAt batches i st with
    | (i', st', .normal) => runEpochs step_fn knobs elapsed interruptAt batches n i' st'
    | (i', st', e) => (i', st', e)

/-- The slice of `TrainerOutput` the model tracks. -/
structure TrainerOutput where
  state : EasyDelState

/-- `VisionCausalLanguageModelTrainer.train` (lines 487-732).
`KeyboardInterrupt` and `EasyDelTimerError` are caught at the `try`
boundary (lines 672-685) and only logged; any other exception raised in
the step loop (the metrics block's `TypeError`/`ZeroDivisionError`/
`UnboundLocalError`) propagates out of `train` uncaught.  After the
loop: the `do_last_save` branch (lines 705-720) binds `filename`; the
`do_eval` branch asserts an eval dataloader (line 736); finally line 729
(`output.last_save_file_name = filename`) raises `UnboundLocalError`
whenever no `_save_state` call ever ran. -/
def train (step_fn : EasyDelState → Nat → EasyDelState) (knobs : TrainKnobs)
    (elapsed : Nat → Nat) (interruptAt : Option Nat) (batches : List Nat)
    (s0 : EasyDelState) : Except PyErr TrainerOutput :=
  let st0 : LoopSt :=
    { state := s0, current_step := s0.step, completed := 0, saved := false,
      information_queries_bound := false }
  let r := runEpochs step_fn knobs elapsed interruptAt batches knobs.num_train_epochs 0 st0
  let stF := r.2.1
  match r.2.2 with
  | .fatal e => .error e
  | _ =>
    let saved :=
      if knobs.save_steps = none ∧ knobs.do_last_save then true else stF.saved
    if knobs.do_eval ∧ ¬knobs.dataloader_eval_avail then .error .assertionError
    else if saved = false then .error .unboundLocalError
    else .ok { state := stF.state }

/-! ### Concrete fixtures used by witnesses and counterexamples -/

/-- A concrete gradient transformation for C1: `update` returns the
gradients as updates and also stores them as the new optimizer state. -/
def txC1 : GradientTransformation := ⟨fun p => p, fun g _ _ => (g, some g)⟩

/-- A concrete state for the C1 witness. -/
def stateC1 : EasyDelState :=
  { step := 0, module := none, module_config := none, module_config_args := none,
    apply_fn := 0, params := .leaf 1, tx := txC1, opt_state := none,
    tx_init := none, hyperparameters := none }

/-- A state whose parameters carry the overwrite-with-gradient key
(C1 counterexample). -/
def stateC1owg : EasyDelState :=
  { stateC1 with params := .node [(paramsKey, .leaf 1), (owg, .leaf 7)] }

/-- A gradient tree with the overwrite-with-gradient key, matching the
topology of `stateC1owg.params` (C1 counterexample). -/
def gradsC1owg : PTree := .node [(paramsKey, .leaf 2), (owg, .leaf 9)]

/-- A concrete gradient transformation for the C2 witness. -/
def txC2 : GradientTransformation := ⟨fun p => p, fun g _ _ => (g, some g)⟩

/-- The state produced by `EasyDelState.create` on the C2 witness input. -/
def stC2 : EasyDelState :=
  { step := 0, module := none, module_config := none, module_config_args := none,
    apply_fn := 0, params := .leaf 5, tx := txC2, opt_state := some (.leaf 5),
    tx_init := none, hyperparameters := none }

/-- A concrete gradient transformation for the C8 witness/counterexample. -/
def txC8 : GradientTransformation := ⟨fun p => p, fun g _ _ => (g, some g)⟩

/-- A module config carrying one non-int/bool attribute (C8). -/
def cfgC8 : ModuleConfig :=
  { attrs := [(("x").data, PyVal.str (("y").data))],
    partitionRules := fun _ => [], jaxMesh := () }

/-- A non-int/bool-valued `tx_init` dictionary (C8). -/
def tiC8 : Dict := [(("optimizer").data, PyVal.str (("adamw").data))]

/-- The state `EasyDelState.create` builds from `tiC8`, empty
hyperparameters and `cfgC8` (C8 witness). -/
def stC8w : EasyDelState :=
  { step := 0, module := none,
    module_config := some { attrs := [], partitionRules := fun _ => [], jaxMesh := () },
    module_config_args := none, apply_fn := 0, params := .leaf 1, tx := txC8,
    opt_state := some (.leaf 1),
    tx_init := some [(("optimizer_is_adamw").data, PyVal.int 1)],
    hyperparameters := some [(("x_is_y").data, PyVal.int 1)] }

/-- A concrete gradient transformation for the C9 witness. -/
def txC9 : GradientTransformation := ⟨fun p => p, fun g _ _ => (g, some g)⟩

/-- A concrete state for the C9 witness. -/
def stateC9 : EasyDelState :=
  { step := 0, module := some 3, module_config := none, module_config_args := some [],
    apply_fn := 7, params := .leaf 1, tx := txC9, opt_state := none,
    tx_init := some [], hyperparameters := some [] }

/-- The state `stateC9.apply_gradients (leaf 2)` produces. -/
def stateC9out : EasyDelState :=
  { stateC9 with step := 1, params := .leaf 3, opt_state := some (.leaf 2) }

/-- Opaque `match_partition_rules` collaborator for C5. -/
def mprC5 : RulesT → PTree → SpecsT := fun _ _ => []

/-- Opaque `make_shard_and_gather_fns` collaborator for C5. -/
def mkC5 : SpecsT → DtypeT → FTree × FTree :=
  fun _ _ => (FTree.leaf (fun x => x), FTree.leaf (fun x => x))

/-- A concrete gradient transformation for C5. -/
def txC1v5 : GradientTransformation := ⟨fun p => p, fun g _ _ => (g, some g)⟩

/-- A concrete state for C5 with no `module_config`. -/
def sC5 : EasyDelState :=
  { step := 0, module := none, module_config := none, module_config_args := none,
    apply_fn := 0, params := .leaf 3, tx := txC1v5, opt_state := none,
    tx_init := none, hyperparameters := none }

/-- An explicit per-leaf shard-function tree for C5. -/
def fC5 : FTree := .leaf (fun x => x + 1)

/-- An explicit (non-empty) rule sequence for C5. -/
def rC5 : RulesT := [(("a").data, ("b").data)]

/-- A module config for C5, used to show that a present `module_config`
overrides explicitly passed shard functions. -/
def cfgC5 : ModuleConfig :=
  { attrs := [], partitionRules := fun _ => rC5, jaxMesh := () }

/-- The C5 state with `module_config` attached. -/
def sC5cfg : EasyDelState := { sC5 with module_config := some cfgC5 }

/-- The train-step collaborator for C7: increments the state step. -/
def stepC7 : EasyDelState → Nat → EasyDelState :=
  fun s _ => { s with step := s.step + 1 }

/-- A concrete gradient transformation for C7. -/
def txC1v7 : GradientTransformation := ⟨fun p => p, fun g _ _ => (g, some g)⟩

/-- A concrete initial state for C7. -/
def sC7 : EasyDelState :=
  { step := 0, module := none, module_config := none, module_config_args := none,
    apply_fn := 0, params := .leaf 0, tx := txC1v7, opt_state := none,
    tx_init := none, hyperparameters := none }

/-- Trainer configuration for C7: one epoch, no checkpointing at all
(`save_steps=None`, `do_last_save=False`), `step_start_point=0` (so line
600's subtraction succeeds), no wandb, no timeout, no eval. -/
def knobsC7 : TrainKnobs :=
  { num_train_epochs := 1, max_training_steps := 100, step_start_point := some 0,
    training_time := none, save_steps := none, do_last_save := false,
    do_eval := false, dataloader_eval_avail := false, wandb_on := false }

/-- A concrete dictionary of string-valued optimizer hyperparameters for
the C3 witness. -/
def dC3w : Dict :=
  [(("optimizer").data, PyVal.str (("adamw").data)),
   (("scheduler").data, PyVal.str (("linear").data))]

/-! ### Dictionary lemmas -/

theorem dict_keys_append (a b : Dict) :
    Dict.keys (a ++ b) = Dict.keys a ++ Dict.keys b := List.map_append _ _ _

theorem dict_lookup_eq_none {d : Dict} {k : PyStr} (h : k ∉ Dict.keys d) :
    d.lookup k = none := by
  induction d with
  | nil => rfl
  | cons kv rest ih =>
    simp only [Dict.keys, List.map_cons, List.mem_cons, not_or] at h
    cases kv with
    | mk k1 v1 =>
      simp only [List.lookup]
      rw [beq_false_of_ne (by simpa using h.1)]
      exact ih h.2

theorem dict_contains_iff {d : Dict} {k : PyStr} :
    d.containsKey k = true ↔ k ∈ Dict.keys d := by
  simp [Dict.containsKey]

theorem dict_keys_set_of_contains {d : Dict} {k : PyStr} (v : PyVal)
    (h : d.containsKey k = true) : Dict.keys (d.set k v) = Dict.keys d := by
  unfold Dict.set
  rw [if_pos h]
  unfold Dict.keys
  rw [List.map_map]
  refine List.map_congr_left ?_
  intro kv _
  by_cases he : kv.1 = k
  · simp [Function.comp, he]
  · simp [Function.comp, he]

theorem dict_set_of_not_contains {d : Dict} {k : PyStr} (v : PyVal)
    (h : d.containsKey k = false) : d.set k v = d ++ [(k, v)] := by
  unfold Dict.set
  rw [if_neg (by simp [h])]

theorem dict_mem_keys_set (d : Dict) (k k' : PyStr) (v : PyVal) :
    k' ∈ Dict.keys (d.set k v) ↔ k' = k ∨ k' ∈ Dict.keys d := by
  cases hc : d.containsKey k with
  | true =>
    rw [dict_keys_set_of_contains v hc]
    have hk : k ∈ Dict.keys d := dict_contains_iff.mp hc
    constructor
    · exact Or.inr
    · rintro (rfl | h)
      · exact hk
      · exact h
  | false =>
    rw [dict_set_of_not_contains v hc, dict_keys_append]
    simp [Dict.keys, or_comm]

theorem dict_mem_set {d : Dict} {k : PyStr} {v : PyVal} {kv : PyStr × PyVal}
    (h : kv ∈ d.set k v) : kv = (k, v) ∨ kv ∈ d := by
  unfold Dict.set at h
  by_cases hc : d.containsKey k = true
  · rw [if_pos hc] at h
    obtain ⟨kv0, hkv0, hmap⟩ := List.mem_map.mp h
    by_cases he : kv0.1 = k
    · simp only [he, if_true] at hmap
      exact Or.inl hmap.symm
    · simp only [he, if_false] at hmap
      exact Or.inr (hmap ▸ hkv0)
  · rw [if_neg hc] at h
    rcases List.mem_append.mp h with h' | h'
    · exact Or.inr h'
    · exact Or.inl (by simpa using h')

theorem dict_erase_of_notMem {d : Dict} {k : PyStr} (h : k ∉ Dict.keys d) :
    d.erase k = d := by
  unfold Dict.erase
  refine List.filter_eq_self.mpr ?_
  intro kv hkv
  have : kv.1 ∈ Dict.keys d := List.mem_map_of_mem Prod.fst hkv
  simp only [ne_eq, decide_eq_true_eq]
  rintro rfl
  exact h this

/-! ### `unsafe_dict` characterization (claim C10) -/

theorem unsafe_go_keys (ks : List PyStr) (r : Dict) (k' : PyStr) :
    k' ∈ Dict.keys (ks.foldl unsafeStep r) ↔
      k' ∈ Dict.keys r ∨ ∃ k ∈ ks, ∃ v, splitIs k = [k', v] := by
  induction ks generalizing r with
  | nil => simp
  | cons k ks ih =>
    rw [List.foldl_cons, ih]
    rcases hsp : splitIs k with _ | ⟨a, _ | ⟨b, _ | ⟨c, rest⟩⟩⟩
    · have hstep : unsafeStep r k = r := by unfold unsafeStep; rw [hsp]
      rw [hstep]
      constructor
      · rintro (h | ⟨kk, hkk, v, hv⟩)
        · exact Or.inl h
        · exact Or.inr ⟨kk, List.mem_cons_of_mem _ hkk, v, hv⟩
      · rintro (h | ⟨kk, hkk, v, hv⟩)
        · exact Or.inl h
        · rcases List.mem_cons.mp hkk with rfl | hkk'
          · rw [hsp] at hv; exact absurd hv (by simp)
          · exact Or.inr ⟨kk, hkk', v, hv⟩
    · have hstep : unsafeStep r k = r := by unfold unsafeStep; rw [hsp]
      rw [hstep]
      constructor
      · rintro (h | ⟨kk, hkk, v, hv⟩)
        · exact Or.inl h
        · exact Or.inr ⟨kk, List.mem_cons_of_mem _ hkk, v, hv⟩
      · rintro (h | ⟨kk, hkk, v, hv⟩)
        · exact Or.inl h
        · rcases List.mem_cons.mp hkk with rfl | hkk'
          · rw [hsp] at hv; exact absurd hv (by simp)
          · exact Or.inr ⟨kk, hkk', v, hv⟩
    · have hstep : unsafeStep r k = r.set a (PyVal.str b) := by
        unfold unsafeStep; rw [hsp]
      rw [hstep]
      constructor
      · rintro (h | ⟨kk, hkk, v, hv⟩)
        · rcases (dict_mem_keys_set r a k' (PyVal.str b)).mp h with rfl | h'
          · exact Or.inr ⟨k, List.mem_cons_self .., b, hsp⟩
          · exact Or.inl h'
        · exact Or.inr ⟨kk, List.mem_cons_of_mem _ hkk, v, hv⟩
      · rintro (h | ⟨kk, hkk, v, hv⟩)
        · exact Or.inl ((dict_mem_keys_set r a k' (PyVal.str b)).mpr (Or.inr h))
        · rcases List.mem_cons.mp hkk with rfl | hkk'
          · rw [hsp] at hv
            injection hv with h1 h2
            exact Or.inl ((dict_mem_keys_set r a k' (PyVal.str b)).mpr (Or.inl h1.symm))
          · exact Or.inr ⟨kk, hkk', v, hv⟩
    · have hstep : unsafeStep r k = r := by unfold unsafeStep; rw [hsp]
      rw [hstep]
      constructor
      · rintro (h | ⟨kk, hkk, v, hv⟩)
        · exact Or.inl h
        · exact Or.inr ⟨kk, List.mem_cons_of_mem _ hkk, v, hv⟩
      · rintro (h | ⟨kk, hkk, v, hv⟩)
        · exact Or.inl h
        · rcases List.mem_cons.mp hkk with rfl | hkk'
          · rw [hsp] at hv; exact absurd hv (by simp)
          · exact Or.inr ⟨kk, hkk', v, hv⟩

theorem unsafe_go_mem (ks : List PyStr) (r : Dict) (kv : PyStr × PyVal)
    (h : kv ∈ ks.foldl unsafeStep r) :
    kv ∈ r ∨ ∃ k ∈ ks, ∃ s, splitIs k = [kv.1, s] ∧ kv.2 = PyVal.str s := by
  induction ks generalizing r with
  | nil => exact Or.inl h
  | cons k ks ih =>
    rw [List.foldl_cons] at h
    rcases ih _ h with h' | h'
    · unfold unsafeStep at h'
      match hsp : splitIs k with
      | [] => rw [hsp] at h'; exact Or.inl h'
      | [a] => rw [hsp] at h'; exact Or.inl h'
      | [a, b] =>
        rw [hsp] at h'
        rcases dict_mem_set h' with h'' | h''
        · refine Or.inr ⟨k, List.mem_cons_self .., b, ?_, ?_⟩
          · rw [hsp, h'']
          · rw [h'']
        · exact Or.inl h''
      | a :: b :: c :: rest => rw [hsp] at h'; exact Or.inl h'
    · obtain ⟨kk, hkk, s, hs⟩ := h'
      exact Or.inr ⟨kk, List.mem_cons_of_mem _ hkk, s, hs⟩

/-- C10: `unsafe_dict(d)` is built solely from the keys of `d` that split
on `"_is_"` into exactly two parts — the stored values of `d` are never
consulted, a key splitting into two parts `[key, val]` contributes the
entry `key ↦ str(val)`, and every other key of `d` is silently dropped
(contributes no key to the result). -/
theorem unsafe_dict_characterization (d : Dict) :
    (∀ d' : Dict, Dict.keys d = Dict.keys d' → unsafe_dict d = unsafe_dict d') ∧
    (∀ k' : PyStr,
      k' ∈ Dict.keys (unsafe_dict d) ↔ ∃ k ∈ Dict.keys d, ∃ v, splitIs k = [k', v]) ∧
    (∀ kv ∈ unsafe_dict d,
      ∃ k ∈ Dict.keys d, ∃ s, splitIs k = [kv.1, s] ∧ kv.2 = PyVal.str s) := by
  refine ⟨?_, ?_, ?_⟩
  · intro d' hk
    unfold unsafe_dict
    rw [hk]
  · intro k'
    unfold unsafe_dict
    rw [unsafe_go_keys]
    simp [Dict.keys]
  · intro kv hkv
    unfold unsafe_dict at hkv
    rcases unsafe_go_mem _ _ _ hkv with h | h
    · exact absurd h (List.not_mem_nil kv)
    · exact h

/-- Witness for C10 at a concrete dictionary: values are irrelevant
(replacing them changes nothing), the encoded key is recovered, and the
un-encodable key `"plain"` is dropped. -/
theorem unsafe_dict_characterization_witness :
    unsafe_dict [(("model_type_is_llama").data, PyVal.int 1), (("plain").data, PyVal.int 7)]
      = unsafe_dict [(("model_type_is_llama").data, PyVal.bool true), (("plain").data, PyVal.str (("x").data))] ∧
    ((("model_type").data ∈ Dict.keys (unsafe_dict [(("model_type_is_llama").data, PyVal.int 1), (("plain").data, PyVal.int 7)])) ↔
      ∃ k ∈ Dict.keys [(("model_type_is_llama").data, PyVal.int 1), (("plain").data, PyVal.int 7)], ∃ v, splitIs k = [("model_type").data, v]) :=
  ⟨(unsafe_dict_characterization _).1 _ (by decide),
   (unsafe_dict_characterization _).2.1 _⟩

/-! ### Model-type discovery (claim C4) -/

theorem foldl_lastMatch (p : PyStr → Bool) (f : PyStr → PyStr) :
    ∀ (l : List PyStr) (acc : Option PyStr),
      l.foldl (fun a x => if p x then some (f x) else a) acc
        = match (l.filter p).getLast? with
          | some x => some (f x)
          | none => acc := by
  intro l
  induction l using List.reverseRecOn with
  | nil => intro acc; rfl
  | append_singleton xs x ih =>
    intro acc
    rw [List.foldl_append, List.foldl_cons, List.foldl_nil, ih]
    cases hpx : p x with
    | true =>
      rw [List.filter_append, List.filter_cons_of_pos hpx, List.filter_nil,
        List.getLast?_concat]
      simp
    | false =>
      rw [List.filter_append, List.filter_cons_of_neg (by simp [hpx]),
        List.filter_nil, List.append_nil]
      simp [hpx]

/-- C4 (amended): model-type resolution takes the LAST hyperparameter key
matching `"model_type_is_"` and returns its final `"model_type_is_"`-split
segment; it fails (yields no model type, hence the downstream lookup
error) exactly when no key matches.  Multiple matching keys are not
rejected. -/
theorem get_model_type_last_match (h : Dict) :
    get_model_type h =
      ((Dict.keys h).filter (fun k => (("model_type_is_").data).isPrefixOf k)).getLast?.map
        (fun k => (splitModelType k).getLastD []) := by
  unfold get_model_type
  have hmap : h.foldl
      (fun acc kv =>
        if (("model_type_is_").data).isPrefixOf kv.1 then
          some ((splitModelType kv.1).getLastD [])
        else acc) none
      = (Dict.keys h).foldl
        (fun acc k =>
          if (("model_type_is_").data).isPrefixOf k then
            some ((splitModelType k).getLastD [])
          else acc) none := by
    unfold Dict.keys
    rw [List.foldl_map]
  rw [hmap, foldl_lastMatch]
  cases ((Dict.keys h).filter (fun k => (("model_type_is_").data).isPrefixOf k)).getLast? with
  | none => rfl
  | some x => rfl

/-- C4 counterexample: a hyperparameters mapping with TWO keys matching
`"model_type_is_<name>"` does not fail — resolution succeeds and returns
the name of the last matching key. -/
theorem get_model_type_ambiguous_counterexample :
    (Dict.keys [(("model_type_is_llama").data, PyVal.int 1), (("model_type_is_gpt2").data, PyVal.int 1)]).countP
        (fun k => (("model_type_is_").data).isPrefixOf k) = 2 ∧
    get_model_type [(("model_type_is_llama").data, PyVal.int 1), (("model_type_is_gpt2").data, PyVal.int 1)]
      = some (("gpt2").data) :=
  ⟨by decide, by decide⟩

/-! ### `apply_gradients` (claims C1 and C9) -/

/-- C1 (amended): when the gradient tree does not carry the
overwrite-with-gradient key, `apply_gradients` is exactly one call
`updates, new_opt_state = tx.update(grads, opt_state, params)` followed by
`optax.apply_updates`, with `step` incremented by 1 (and, the model being
pure, no mutation of the input state and no other effect). -/
theorem apply_gradients_no_overwrite (s : EasyDelState) (grads : PTree)
    (h : grads.hasKey owg = false) :
    s.apply_gradients grads =
      (applyUpdates s.params (s.tx.update grads s.opt_state s.params).1).map
        (fun np =>
          { s with step := s.step + 1, params := np,
                   opt_state := (s.tx.update grads s.opt_state s.params).2 }) := by
  unfold EasyDelState.apply_gradients
  rw [h]
  simp only [Bool.false_eq_true, if_false]
  cases happ : applyUpdates s.params (s.tx.update grads s.opt_state s.params).1 with
  | none => simp [happ]
  | some np => simp [happ]

/-- Witness for C1 at a concrete state and gradient. -/
theorem apply_gradients_no_overwrite_witness :
    (PTree.leaf 2).hasKey owg = false ∧
    stateC1.apply_gradients (.leaf 2) =
      (applyUpdates stateC1.params
          (stateC1.tx.update (.leaf 2) stateC1.opt_state stateC1.params).1).map
        (fun np =>
          { stateC1 with step := stateC1.step + 1, params := np,
                         opt_state := (stateC1.tx.update (.leaf 2) stateC1.opt_state stateC1.params).2 }) :=
  ⟨rfl, apply_gradients_no_overwrite stateC1 (.leaf 2) rfl⟩

/-- C1 counterexample: when the gradient tree carries the
overwrite-with-gradient key, `opt_state` of the result is NOT the second
component of `tx.update(grads, s.opt_state, s.params)` — the code calls
`tx.update` on the `'params'` subtrees instead. -/
theorem apply_gradients_overwrite_counterexample :
    (stateC1owg.apply_gradients gradsC1owg).map (fun st => st.opt_state) ≠
      some (stateC1owg.tx.update gradsC1owg stateC1owg.opt_state stateC1owg.params).2 := by
  decide

/-- C9: `apply_gradients` (without explicit keyword overrides) preserves
every field other than `step`, `params` and `opt_state`. -/
theorem apply_gradients_frame (s : EasyDelState) (grads : PTree)
    (st : EasyDelState) (h : s.apply_gradients grads = some st) :
    st.module = s.module ∧ st.module_config = s.module_config ∧
    st.module_config_args = s.module_config_args ∧ st.apply_fn = s.apply_fn ∧
    st.tx = s.tx ∧ st.tx_init = s.tx_init ∧
    st.hyperparameters = s.hyperparameters := by
  unfold EasyDelState.apply_gradients at h
  cases hk : grads.hasKey owg with
  | false =>
    rw [hk] at h
    simp only [Bool.false_eq_true, if_false] at h
    cases happ : applyUpdates s.params (s.tx.update grads s.opt_state s.params).1 with
    | none => rw [happ] at h; exact absurd h (by simp)
    | some np =>
      rw [happ] at h
      have h' := Option.some.inj h
      rw [← h']
      exact ⟨rfl, rfl, rfl, rfl, rfl, rfl, rfl⟩
  | true =>
    rw [hk] at h
    simp only [if_true] at h
    cases hg : grads.getKey paramsKey with
    | none => rw [hg] at h; exact absurd h (by simp)
    | some g =>
      cases hp : s.params.getKey paramsKey with
      | none => rw [hg, hp] at h; exact absurd h (by simp)
      | some p =>
        rw [hg, hp] at h
        simp only [] at h
        cases happ : applyUpdates p (s.tx.update g s.opt_state p).1 with
        | none => rw [happ] at h; exact absurd h (by simp)
        | some np =>
          rw [happ] at h
          cases hg2 : grads.getKey owg with
          | none => rw [hg2] at h; exact absurd h (by simp)
          | some g2 =>
            rw [hg2] at h
            have h' := Option.some.inj h
            rw [← h']
            exact ⟨rfl, rfl, rfl, rfl, rfl, rfl, rfl⟩

/-- Witness for C9 at a concrete state and gradient. -/
theorem apply_gradients_frame_witness :
    stateC9out.module = stateC9.module ∧
    stateC9out.module_config = stateC9.module_config ∧
    stateC9out.module_config_args = stateC9.module_config_args ∧
    stateC9out.apply_fn = stateC9.apply_fn ∧
    stateC9out.tx = stateC9.tx ∧ stateC9out.tx_init = stateC9.tx_init ∧
    stateC9out.hyperparameters = stateC9.hyperparameters :=
  apply_gradients_frame stateC9 (.leaf 2) stateC9out rfl

/-! ### `create` (claims C2 and C8) -/

/-- C2: whenever `EasyDelState.create` returns a state, that state has
`step = 0` and its `opt_state` is exactly `tx.init` applied to the
parameter subtree (`params['params']` when the overwrite-with-gradient
key is present, the whole `params` otherwise). -/
theorem create_step_zero_and_opt_init (apply_fn : Nat) (params : PTree)
    (tx : GradientTransformation) (tx_init hyper : Option Dict)
    (module : Option Nat) (module_config : Option ModuleConfig)
    (module_config_args : Option Dict) (st : EasyDelState)
    (h : EasyDelState.create apply_fn params tx tx_init hyper module
          module_config module_config_args = some st) :
    st.step = 0 ∧
    ∃ pwo, paramsWithOpt params = some pwo ∧ st.opt_state = some (tx.init pwo) := by
  unfold EasyDelState.create at h
  cases hp : paramsWithOpt params with
  | none => rw [hp] at h; exact absurd h (by simp)
  | some pwo =>
    rw [hp] at h
    simp only [Option.map_eq_some'] at h
    obtain ⟨ch, _, hst⟩ := h
    exact ⟨by rw [← hst], pwo, rfl, by rw [← hst]⟩

/-- Witness for C2 at a concrete `create` call. -/
theorem create_step_zero_and_opt_init_witness :
    stC2.step = 0 ∧
    ∃ pwo, paramsWithOpt (.leaf 5) = some pwo ∧ stC2.opt_state = some (txC2.init pwo) :=
  create_step_zero_and_opt_init 0 (.leaf 5) txC2 none none none none none stC2 rfl

/-! ### `from_pretrained` flag conflict (claim C6) -/

/-- C6: calling `from_pretrained` with both `init_optimizer_state=True`
and `free_optimizer_state=True` raises `EasyDelRuntimeError` immediately,
whatever the rest of the function (model loading, state construction)
would do — the result does not depend on the continuation. -/
theorem from_pretrained_conflicting_flags
    (rest : Unit → Except PyErr EasyDelState) :
    EasyDelState.from_pretrained true true rest
      = .error .easyDelRuntimeErrorOptimizerFlags ∧
    ∀ rest' : Unit → Except PyErr EasyDelState,
      EasyDelState.from_pretrained true true rest
        = EasyDelState.from_pretrained true true rest' :=
  ⟨rfl, fun _ => rfl⟩

/-! ### Trainer interrupt handling (claim C7) -/

/-- C7: the claimed catch-and-return behaviour cannot occur.  (1) A run
with an interrupt pending at iteration 3 never reaches it: the first
executed train step raises `UnboundLocalError` at line 622 (the
`"accelerators": information_queries` entry of the metrics dict reads
the local before its only assignment at line 627), which the `except
KeyboardInterrupt`/`except EasyDelTimerError` clauses do not catch, so
`train` raises instead of returning — whatever `do_last_save` is.
(2) With `step_start_point=None` (its default) the same first step dies
even earlier, at line 600, with a `TypeError`.  (3) The only interrupted
runs that reach the `except` clause are ones interrupted before any step
completed; if no `_save_state` ever ran, line 729
(`output.last_save_file_name = filename`) then raises `UnboundLocalError`
on the unbound `filename` instead of returning.  (4) With
`do_last_save=True` such a zero-step interrupted run does return a
`TrainerOutput`, carrying the initial state (step 0). -/
theorem train_interrupt_behavior :
    train stepC7 knobsC7 (fun _ => 0) (some 3) [0, 1, 2, 3, 4] sC7
      = .error .unboundLocalError ∧
    train stepC7 { knobsC7 with do_last_save := true } (fun _ => 0) (some 3)
        [0, 1, 2, 3, 4] sC7 = .error .unboundLocalError ∧
    train stepC7 { knobsC7 with step_start_point := none } (fun _ => 0) (some 3)
        [0, 1, 2, 3, 4] sC7 = .error .typeError ∧
    train stepC7 knobsC7 (fun _ => 0) (some 0) [0, 1, 2, 3, 4] sC7
      = .error .unboundLocalError ∧
    (train stepC7 { knobsC7 with do_last_save := true } (fun _ => 0) (some 0)
        [0, 1, 2, 3, 4] sC7).map (fun o => o.state.step) = .ok 0 :=
  ⟨rfl, rfl, rfl, rfl, rfl⟩



/-! ### `shard_params` (claim C5) -/

theorem shard_fns_resolution_shape (g : RulesT → FTree) (cond fsdp : Bool)
    (rules : Option RulesT) (cfgo : Option ModuleConfig)
    (sfns : Option FTree) :
    (∃ f, shardFnsResolve g cond fsdp rules cfgo sfns = Except.ok f) ∨
    shardFnsResolve g cond fsdp rules cfgo sfns
      = Except.error PyErr.attributeError := by
  cases cond with
  | true =>
    cases rules with
    | none =>
      cases cfgo with
      | none => exact Or.inr rfl
      | some cfg => exact Or.inl ⟨_, rfl⟩
    | some r =>
      cases r with
      | nil =>
        cases cfgo with
        | none => exact Or.inr rfl
        | some cfg => exact Or.inl ⟨_, rfl⟩
      | cons a as => exact Or.inl ⟨g (a :: as), rfl⟩
  | false =>
    cases sfns with
    | none => exact Or.inr rfl
    | some f => exact Or.inl ⟨f, rfl⟩

theorem mesh_resolution_shape (mesh : Option MeshT) (cfgo : Option ModuleConfig) :
    (∃ m, shardMesh mesh cfgo = Except.ok m) ∨
    shardMesh mesh cfgo = Except.error PyErr.attributeError := by
  cases mesh with
  | some m => exact Or.inl ⟨m, rfl⟩
  | none =>
    cases cfgo with
    | some cfg => exact Or.inl ⟨_, rfl⟩
    | none => exact Or.inr rfl

theorem shardTail_ok_ok (s : EasyDelState) (f : FTree) (m : MeshT) :
    shardTail s (.ok f) (.ok m) =
      match applyFns f s.params with
      | some np => .ok { s with params := np }
      | none => .error .valueError := by
  cases happ : applyFns f s.params with
  | some np => simp only [shardTail]; rw [happ]
  | none => simp only [shardTail]; rw [happ]

theorem shard_tail_no_source (s : EasyDelState) (fns : Except PyErr FTree)
    (meshE : Except PyErr MeshT)
    (hf : (∃ f, fns = Except.ok f) ∨ fns = Except.error PyErr.attributeError)
    (hm : (∃ m, meshE = Except.ok m) ∨ meshE = Except.error PyErr.attributeError) :
    shardTail s fns meshE
      ≠ (Except.error PyErr.easyDelRuntimeErrorShardSource :
          Except PyErr EasyDelState) := by
  rcases hf with ⟨f, rfl⟩ | rfl
  · rcases hm with ⟨m, rfl⟩ | rfl
    · intro h
      have h2 : (match applyFns f s.params with
          | some newParams => Except.ok { s with params := newParams }
          | none => (Except.error PyErr.valueError : Except PyErr EasyDelState))
          = Except.error PyErr.easyDelRuntimeErrorShardSource := h
      cases happ : applyFns f s.params with
      | some np =>
        rw [happ] at h2
        exact Except.noConfusion h2
      | none =>
        rw [happ] at h2
        injection h2 with he
        exact PyErr.noConfusion he
    · intro h
      have h2 : (Except.error PyErr.attributeError : Except PyErr EasyDelState)
          = Except.error PyErr.easyDelRuntimeErrorShardSource := h
      injection h2 with he
      exact PyErr.noConfusion he
  · intro h
    have h2 : (Except.error PyErr.attributeError : Except PyErr EasyDelState)
        = Except.error PyErr.easyDelRuntimeErrorShardSource := h
    injection h2 with he
    exact PyErr.noConfusion he

/-- C5 (amended): `shard_params` raises its missing-source
`EasyDelRuntimeError` exactly when ALL THREE of `shard_fns`, `rules` and
`module_config` are absent (not when more than one is present).  The
sources are not symmetric: explicitly passed `shard_fns` are used only
when `module_config` is `None` (second conjunct); whenever
`module_config` is present, the `elif` at line 461 —
`shard_fns is None and rules is not None or self.module_config is not
None`, i.e. `(shard_fns is None and rules is not None) or
(module_config is not None)` — rebuilds `shard_fns` from
`rules or module_config.get_partition_rules(...)` and the passed
functions are discarded (last conjunct, whose right-hand side does not
mention the passed tree `f`).  In each case the resolved per-leaf shard
functions are applied to the corresponding parameter leaves. -/
theorem shard_params_missing_source (mpr : RulesT → PTree → SpecsT)
    (mkfns : SpecsT → DtypeT → FTree × FTree) (s : EasyDelState) (fsdp : Bool)
    (sfns : Option FTree) (dtype : DtypeT) (mesh : Option MeshT)
    (rules : Option RulesT) :
    (EasyDelState.shard_params mpr mkfns s fsdp sfns dtype mesh rules
        = .error .easyDelRuntimeErrorShardSource
      ↔ sfns = none ∧ s.module_config = none ∧ rules = none) ∧
    (∀ f m, sfns = some f → s.module_config = none → mesh = some m →
      EasyDelState.shard_params mpr mkfns s fsdp sfns dtype mesh rules =
        match applyFns f s.params with
        | some np => .ok { s with params := np }
        | none => .error .valueError) ∧
    (∀ r m, sfns = none → s.module_config = none → rules = some r → r ≠ [] →
        mesh = some m →
      EasyDelState.shard_params mpr mkfns s fsdp sfns dtype mesh rules =
        match applyFns (mkfns (mpr r s.params) dtype).1 s.params with
        | some np => .ok { s with params := np }
        | none => .error .valueError) ∧
    (∀ cfg, sfns = none → s.module_config = some cfg → rules = none →
      EasyDelState.shard_params mpr mkfns s fsdp sfns dtype mesh rules =
        match applyFns (mkfns (mpr (cfg.partitionRules fsdp) s.params) dtype).1
            s.params with
        | some np => .ok { s with params := np }
        | none => .error .valueError) ∧
    (∀ f cfg, sfns = some f → s.module_config = some cfg →
      EasyDelState.shard_params mpr mkfns s fsdp sfns dtype mesh rules =
        match applyFns
            (mkfns (mpr (match rules with
                         | some r => if r ≠ [] then r else cfg.partitionRules fsdp
                         | none => cfg.partitionRules fsdp) s.params) dtype).1
            s.params with
        | some np => .ok { s with params := np }
        | none => .error .valueError) := by
  refine ⟨⟨?_, ?_⟩, ?_, ?_, ?_, ?_⟩
  · intro h
    unfold EasyDelState.shard_params at h
    cases hcond : (sfns.isNone && s.module_config.isNone && rules.isNone) with
    | true =>
      simp only [Bool.and_eq_true, Option.isNone_iff_eq_none] at hcond
      exact ⟨hcond.1.1, hcond.1.2, hcond.2⟩
    | false =>
      rw [hcond] at h
      simp only [Bool.false_eq_true, if_false] at h
      exact absurd h
        (shard_tail_no_source s _ _
          (shard_fns_resolution_shape _ _ fsdp rules s.module_config sfns)
          (mesh_resolution_shape mesh s.module_config))
  · rintro ⟨rfl, hc, rfl⟩
    unfold EasyDelState.shard_params
    rw [hc]
    rfl
  · rintro f m rfl hc rfl
    unfold EasyDelState.shard_params
    conv_lhs => rw [hc]
    exact shardTail_ok_ok s f m
  · rintro r m rfl hc rfl hr rfl
    unfold EasyDelState.shard_params
    conv_lhs => rw [hc]
    cases r with
    | nil => exact absurd rfl hr
    | cons a as =>
      exact shardTail_ok_ok s ((mkfns (mpr (a :: as) s.params) dtype).1) m
  · rintro cfg rfl hc rfl
    unfold EasyDelState.shard_params
    conv_lhs => rw [hc]
    cases mesh with
    | none =>
      exact shardTail_ok_ok s
        ((mkfns (mpr (cfg.partitionRules fsdp) s.params) dtype).1) cfg.jaxMesh
    | some m =>
      exact shardTail_ok_ok s
        ((mkfns (mpr (cfg.partitionRules fsdp) s.params) dtype).1) m
  · rintro f cfg rfl hc
    unfold EasyDelState.shard_params
    conv_lhs => rw [hc]
    cases rules with
    | none =>
      cases mesh with
      | none =>
        exact shardTail_ok_ok s
          ((mkfns (mpr (cfg.partitionRules fsdp) s.params) dtype).1) cfg.jaxMesh
      | some m =>
        exact shardTail_ok_ok s
          ((mkfns (mpr (cfg.partitionRules fsdp) s.params) dtype).1) m
    | some r =>
      cases r with
      | nil =>
        cases mesh with
        | none =>
          exact shardTail_ok_ok s
            ((mkfns (mpr (cfg.partitionRules fsdp) s.params) dtype).1) cfg.jaxMesh
        | some m =>
          exact shardTail_ok_ok s
            ((mkfns (mpr (cfg.partitionRules fsdp) s.params) dtype).1) m
      | cons a as =>
        cases mesh with
        | none =>
          exact shardTail_ok_ok s
            ((mkfns (mpr (a :: as) s.params) dtype).1) cfg.jaxMesh
        | some m =>
          exact shardTail_ok_ok s
            ((mkfns (mpr (a :: as) s.params) dtype).1) m

/-- Witness for C5: with no source at all, the missing-source error is
raised; and with BOTH explicit shard functions (`fC5`, which adds 1 to
the leaf) and a `module_config` present, the config-derived identity
functions are applied — the result keeps the leaf at 3, showing the
passed `fC5` (which would have produced 4) is discarded. -/
theorem shard_params_missing_source_witness :
    (EasyDelState.shard_params mprC5 mkC5 sC5 true none (("bf16").data) none none
      = .error .easyDelRuntimeErrorShardSource) ∧
    (EasyDelState.shard_params mprC5 mkC5 sC5cfg true (some fC5) (("bf16").data)
        none none = .ok { sC5cfg with params := .leaf 3 }) :=
  ⟨((shard_params_missing_source mprC5 mkC5 sC5 true none (("bf16").data)
      none none).1).mpr ⟨rfl, rfl, rfl⟩,
   by
     rw [(shard_params_missing_source mprC5 mkC5 sC5cfg true (some fC5)
        (("bf16").data) none none).2.2.2.2 fC5 cfgC5 rfl rfl]
     rfl⟩

/-- C5 counterexample: with TWO sources available (explicit `shard_fns`
AND explicit `rules`), `shard_params` does not raise — it succeeds,
applying the explicit shard functions leaf-wise. -/
theorem shard_params_two_sources_counterexample :
    EasyDelState.shard_params mprC5 mkC5 sC5 true (some fC5) (("bf16").data)
        (some ()) (some rC5) = .ok { sC5 with params := .leaf 4 } := rfl

/-! ### `create` mutation effects (claim C8) -/

theorem dict_lookup_append_right (a b : Dict) {k : PyStr}
    (h : k ∉ Dict.keys a) : (a ++ b).lookup k = b.lookup k := by
  induction a with
  | nil => rfl
  | cons kv rest ih =>
    simp only [Dict.keys, List.map_cons, List.mem_cons, not_or] at h
    simp only [List.cons_append, List.lookup]
    rw [beq_false_of_ne (by simpa using h.1)]
    exact ih (by simpa [Dict.keys] using h.2)

theorem configSplit_go (post : Dict) :
    ∀ (pre hcur : Dict),
      (Dict.keys (pre ++ post)).Nodup →
      (∀ kv ∈ pre, kv.2.isIntOrBool = true) →
      (Dict.keys post).foldl configStep (pre ++ post, hcur)
        = (pre ++ post.filter (fun kv => kv.2.isIntOrBool),
           (post.filter (fun kv => !kv.2.isIntOrBool)).foldl
             (fun hh kv => hh.set (encKey kv.1 kv.2) (PyVal.int 1)) hcur) := by
  induction post with
  | nil =>
    intro pre hcur _ _
    simp [Dict.keys]
  | cons kv rest ih =>
    intro pre hcur hnd hpre
    have hnd' : (Dict.keys pre ++ kv.1 :: Dict.keys rest).Nodup := by
      rw [dict_keys_append] at hnd
      exact hnd
    have hk1pre : kv.1 ∉ Dict.keys pre := by
      intro hmem
      rcases List.nodup_append.mp hnd' with ⟨_, _, hdisj⟩
      exact hdisj hmem (List.mem_cons_self ..)
    have hk1rest : kv.1 ∉ Dict.keys rest := by
      rcases List.nodup_append.mp hnd' with ⟨_, hnc, _⟩
      exact (List.nodup_cons.mp hnc).1
    have hlook : (pre ++ kv :: rest).lookup kv.1 = some kv.2 := by
      rw [dict_lookup_append_right pre (kv :: rest) hk1pre]
      cases kv with
      | mk k1 v1 => simp [List.lookup]
    have hkeys : Dict.keys (kv :: rest) = kv.1 :: Dict.keys rest := rfl
    rw [hkeys, List.foldl_cons]
    have herase : (pre ++ kv :: rest).erase kv.1 = pre ++ rest := by
      unfold Dict.erase
      rw [List.filter_append]
      have h1 : pre.filter (fun kv' => kv'.1 ≠ kv.1) = pre :=
        dict_erase_of_notMem hk1pre
      have h2 : (kv :: rest).filter (fun kv' => kv'.1 ≠ kv.1) = rest := by
        rw [List.filter_cons_of_neg (by simp)]
        exact dict_erase_of_notMem hk1rest
      rw [h1, h2]
    have hstep : configStep (pre ++ kv :: rest, hcur) kv.1 =
        (if kv.2.isIntOrBool then (pre ++ kv :: rest, hcur)
         else (pre ++ rest, hcur.set (encKey kv.1 kv.2) (PyVal.int 1))) := by
      unfold configStep
      rw [hlook]
      dsimp only
      rw [herase]
    cases hv : kv.2.isIntOrBool with
    | true =>
      rw [hstep, if_pos hv]
      have hassoc : pre ++ kv :: rest = (pre ++ [kv]) ++ rest := by
        rw [List.append_assoc]
        rfl
      rw [hassoc]
      rw [ih (pre ++ [kv]) hcur (by rw [← hassoc]; exact hnd)
        (by
          intro kv' hkv'
          rcases List.mem_append.mp hkv' with h' | h'
          · exact hpre kv' h'
          · rw [List.mem_singleton.mp h']
            exact hv)]
      simp [List.filter_cons, hv, List.append_assoc]
    | false =>
      rw [hstep, if_neg (by simp [hv])]
      have hndsub : (Dict.keys (pre ++ rest)).Nodup := by
        rw [dict_keys_append]
        rcases List.nodup_append.mp hnd' with ⟨h1, hnc, hdisj⟩
        exact List.nodup_append.mpr
          ⟨h1, (List.nodup_cons.mp hnc).2,
           fun a ha hb => hdisj ha (List.mem_cons_of_mem _ hb)⟩
      rw [ih pre (hcur.set (encKey kv.1 kv.2) (PyVal.int 1)) hndsub hpre]
      simp [List.filter_cons, hv]

theorem configSplit_spec (attrs hyper : Dict)
    (hnd : (Dict.keys attrs).Nodup) :
    configSplit attrs hyper
      = (attrs.filter (fun kv => kv.2.isIntOrBool),
         (attrs.filter (fun kv => !kv.2.isIntOrBool)).foldl
           (fun hh kv => hh.set (encKey kv.1 kv.2) (PyVal.int 1)) hyper) := by
  have h := configSplit_go attrs [] hyper (by simpa using hnd) (by simp)
  simpa [configSplit] using h

/-- C8 counterexample: the re-encoded `tx_init` keys are written back into
`tx_init` itself — the caller's `hyperparameters` dict is left untouched
(the claim said they were written into `hyperparameters`). -/
theorem create_tx_init_encoding_counterexample :
    (EasyDelState.create 0 (.leaf 1) txC8
        (some [(("optimizer").data, PyVal.str (("adamw").data))]) (some [])
        none none none).map (fun st => st.tx_init)
      = some (some [(("optimizer_is_adamw").data, PyVal.int 1)]) ∧
    (EasyDelState.create 0 (.leaf 1) txC8
        (some [(("optimizer").data, PyVal.str (("adamw").data))]) (some [])
        none none none).map (fun st => st.hyperparameters)
      = some (some []) :=
  ⟨rfl, rfl⟩

/-- C8 (amended): `EasyDelState.create` mutates its arguments in place,
but the `tx_init` re-encoding goes into the caller's `tx_init` dict
itself (making it `safe_dict(tx_init)`), not into `hyperparameters`;
only the non-int/bool `module_config.__dict__` attributes are popped and
encoded into the caller's `hyperparameters` dict; and `create` fails with
a `TypeError` when `hyperparameters` is `None` while `module_config`
carries a non-int/bool attribute. -/
theorem create_mutation_amended (apply_fn : Nat) (params : PTree)
    (tx : GradientTransformation) (ti hyper : Dict) (module : Option Nat)
    (cfg : ModuleConfig) (mca : Option Dict) :
    ((∃ kv ∈ cfg.attrs, kv.2.isIntOrBool = false) →
      EasyDelState.create apply_fn params tx (some ti) none module (some cfg) mca
        = none) ∧
    (∀ st, EasyDelState.create apply_fn params tx (some ti) (some hyper) module
        (some cfg) mca = some st → st.tx_init = some (safe_dict ti)) ∧
    ((Dict.keys cfg.attrs).Nodup →
      ∀ st, EasyDelState.create apply_fn params tx (some ti) (some hyper) module
          (some cfg) mca = some st →
        st.module_config
            = some { cfg with attrs := cfg.attrs.filter (fun kv => kv.2.isIntOrBool) } ∧
        st.hyperparameters
            = some ((cfg.attrs.filter (fun kv => !kv.2.isIntOrBool)).foldl
                (fun hh kv => hh.set (encKey kv.1 kv.2) (PyVal.int 1)) hyper)) := by
  refine ⟨?_, ?_, ?_⟩
  · rintro ⟨kv, hkv, hbad⟩
    have hall : cfg.attrs.all (fun kv => kv.2.isIntOrBool) = false := by
      rw [List.all_eq_false]
      exact ⟨kv, hkv, by simp [hbad]⟩
    unfold EasyDelState.create
    cases hp : paramsWithOpt params with
    | none => rfl
    | some pwo =>
      dsimp only
      rw [hall]
      rfl
  · intro st h
    unfold EasyDelState.create at h
    cases hp : paramsWithOpt params with
    | none => rw [hp] at h; exact absurd h (by simp)
    | some pwo =>
      rw [hp] at h
      dsimp only at h
      cases hall : cfg.attrs.all (fun kv => kv.2.isIntOrBool) with
      | true =>
        rw [if_pos hall] at h
        have h' := Option.some.inj h
        rw [← h']
        rfl
      | false =>
        rw [if_neg (by simp [hall])] at h
        have h' := Option.some.inj h
        rw [← h']
        rfl
  · intro hnd st h
    unfold EasyDelState.create at h
    cases hp : paramsWithOpt params with
    | none => rw [hp] at h; exact absurd h (by simp)
    | some pwo =>
      rw [hp] at h
      dsimp only at h
      cases hall : cfg.attrs.all (fun kv => kv.2.isIntOrBool) with
      | true =>
        rw [if_pos hall] at h
        have h' := Option.some.inj h
        have hfilter : cfg.attrs.filter (fun kv => kv.2.isIntOrBool) = cfg.attrs :=
          List.filter_eq_self.mpr (fun a ha => List.all_eq_true.mp hall a ha)
        have hfilter2 : cfg.attrs.filter (fun kv => !kv.2.isIntOrBool) = [] := by
          rw [List.filter_eq_nil_iff]
          intro a ha
          simp [List.all_eq_true.mp hall a ha]
        rw [← h', hfilter, hfilter2]
        exact ⟨rfl, rfl⟩
      | false =>
        rw [if_neg (by simp [hall])] at h
        have h' := Option.some.inj h
        rw [← h', configSplit_spec cfg.attrs hyper hnd]
        exact ⟨rfl, rfl⟩

/-- Witness for C8 at concrete inputs: the `TypeError` case, the
`tx_init := safe_dict(tx_init)` case, and the `module_config`/
`hyperparameters` split. -/
theorem create_mutation_amended_witness :
    EasyDelState.create 0 (.leaf 1) txC8 (some tiC8) none none (some cfgC8) none
        = none ∧
    stC8w.tx_init = some (safe_dict tiC8) ∧
    (stC8w.module_config
        = some { cfgC8 with attrs := cfgC8.attrs.filter (fun kv => kv.2.isIntOrBool) } ∧
     stC8w.hyperparameters
        = some ((cfgC8.attrs.filter (fun kv => !kv.2.isIntOrBool)).foldl
            (fun hh kv => Dict.set hh (encKey kv.1 kv.2) (PyVal.int 1)) ([] : Dict))) :=
  ⟨(create_mutation_amended 0 (.leaf 1) txC8 tiC8 [] none cfgC8 none).1
      ⟨(("x").data, PyVal.str (("y").data)), by decide, by decide⟩,
   (create_mutation_amended 0 (.leaf 1) txC8 tiC8 [] none cfgC8 none).2.1 stC8w rfl,
   (create_mutation_amended 0 (.leaf 1) txC8 tiC8 [] none cfgC8 none).2.2
      (by decide) stC8w rfl⟩

/-! ### Round-trip of the key encoding (claim C3) -/

theorem splitIs_sep (rest : List Char) :
    splitIs ('_' :: 'i' :: 's' :: '_' :: rest) = [] :: splitIs rest := rfl

theorem splitIs_minlen : ∀ l : List Char, 2 ≤ (splitIs l).length → 4 ≤ l.length := by
  intro l
  induction l using splitIs.induct with
  | case1 rest ih => intro _; simp
  | case2 c rest h chunk chunks heq ih =>
    intro hlen
    rw [splitIs.eq_2 c rest h, heq] at hlen
    have h2 : 2 ≤ (splitIs rest).length := by
      rw [heq]
      simp only [List.length_cons] at hlen ⊢
      omega
    have := ih h2
    simp only [List.length_cons]
    omega
  | case3 c rest h heq =>
    intro hlen
    rw [splitIs.eq_2 c rest h, heq] at hlen
    simp at hlen
  | case4 =>
    intro hlen
    simp [splitIs] at hlen

theorem splitIs_ext :
    ∀ (l a b : List Char) (rs : List (List Char)) (z : List Char),
      splitIs l = a :: b :: rs → ∃ tail, splitIs (l ++ z) = a :: tail := by
  intro l
  induction l using splitIs.induct with
  | case1 rest ih =>
    intro a b rs z hsp
    rw [splitIs_sep] at hsp
    injection hsp with ha hrest
    refine ⟨splitIs (rest ++ z), ?_⟩
    rw [show ('_' :: 'i' :: 's' :: '_' :: rest) ++ z
        = '_' :: 'i' :: 's' :: '_' :: (rest ++ z) from rfl, splitIs_sep, ha]
  | case2 c rest h chunk chunks heq ih =>
    intro a b rs z hsp
    rw [splitIs.eq_2 c rest h, heq] at hsp
    injection hsp with ha hchunks
    have hrest2 : splitIs rest = chunk :: b :: rs := by rw [heq, hchunks]
    obtain ⟨tail, htail⟩ := ih chunk b rs z hrest2
    have hlen : 4 ≤ rest.length := splitIs_minlen rest (by rw [hrest2]; simp)
    have hside : ∀ rest' : List Char,
        c = '_' → rest ++ z = 'i' :: 's' :: '_' :: rest' → False := by
      intro rest' hc happ
      match rest, hlen with
      | r1 :: r2 :: r3 :: rest'', _ =>
        simp only [List.cons_append] at happ
        injection happ with e1 happ
        injection happ with e2 happ
        injection happ with e3 _
        exact h rest'' hc (by rw [e1, e2, e3])
    refine ⟨tail, ?_⟩
    rw [show (c :: rest) ++ z = c :: (rest ++ z) from rfl,
      splitIs.eq_2 c (rest ++ z) hside, htail, ← ha]
  | case3 c rest h heq =>
    intro a b rs z hsp
    rw [splitIs.eq_2 c rest h, heq] at hsp
    injection hsp with _ hcontra
    exact absurd hcontra (by simp)
  | case4 =>
    intro a b rs z hsp
    rw [splitIs.eq_3] at hsp
    injection hsp with _ hcontra
    exact absurd hcontra (by simp)

theorem pystr_of_isStr {v : PyVal} (h : v.isStr = true) : PyVal.str v.pystr = v := by
  cases v <;> simp_all [PyVal.isStr, PyVal.pystr]

theorem safe_go_spec :
    ∀ (pending done : Dict),
      (Dict.keys (pending ++ done)).Nodup →
      (∀ kv ∈ pending, kv.2.isIntOrBool = false) →
      (∀ kv ∈ pending, encKey kv.1 kv.2 ∉ Dict.keys (pending ++ done)) →
      (∀ kv ∈ pending, ∀ kv' ∈ pending,
        encKey kv.1 kv.2 = encKey kv'.1 kv'.2 → kv.1 = kv'.1) →
      (Dict.keys pending).foldl safeStep (pending ++ done)
        = done ++ pending.map (fun kv => (encKey kv.1 kv.2, PyVal.int 1)) := by
  intro pending
  induction pending with
  | nil => intro done _ _ _ _; simp [Dict.keys]
  | cons kv rest ih =>
    intro done hnd hv henc hinj
    have hnd' : (kv.1 :: Dict.keys (rest ++ done)).Nodup := by
      simpa [Dict.keys] using hnd
    have hk1 : kv.1 ∉ Dict.keys (rest ++ done) := (List.nodup_cons.mp hnd').1
    have hndr : (Dict.keys (rest ++ done)).Nodup := (List.nodup_cons.mp hnd').2
    have hstep : safeStep ((kv :: rest) ++ done) kv.1
        = (rest ++ done) ++ [(encKey kv.1 kv.2, PyVal.int 1)] := by
      have hlook : ((kv :: rest) ++ done).lookup kv.1 = some kv.2 := by
        cases kv with
        | mk k1 v1 => simp [List.lookup]
      unfold safeStep
      rw [hlook]
      dsimp only
      rw [if_neg (by simp [hv kv (List.mem_cons_self kv rest)])]
      have herase : Dict.erase ((kv :: rest) ++ done) kv.1 = rest ++ done := by
        cases kv with
        | mk k1 v1 =>
          unfold Dict.erase
          rw [show ((k1, v1) :: rest) ++ done = (k1, v1) :: (rest ++ done) from rfl]
          rw [List.filter_cons_of_neg (by simp)]
          exact dict_erase_of_notMem hk1
      rw [herase]
      have hset : Dict.containsKey (rest ++ done) (encKey kv.1 kv.2) = false := by
        rw [Bool.eq_false_iff]
        intro hc
        exact henc kv (List.mem_cons_self kv rest)
          (List.mem_cons_of_mem _ (dict_contains_iff.mp hc))
      rw [dict_set_of_not_contains _ hset]
    have hv2 : ∀ kv' ∈ rest, kv'.2.isIntOrBool = false :=
      fun kv' h' => hv kv' (List.mem_cons_of_mem kv h')
    have hinj2 : ∀ a ∈ rest, ∀ b ∈ rest,
        encKey a.1 a.2 = encKey b.1 b.2 → a.1 = b.1 :=
      fun a ha b hb => hinj a (List.mem_cons_of_mem kv ha) b (List.mem_cons_of_mem kv hb)
    have henckv : encKey kv.1 kv.2 ∉ Dict.keys (rest ++ done) := by
      intro hc
      exact henc kv (List.mem_cons_self kv rest) (List.mem_cons_of_mem _ hc)
    have hnd2 : (Dict.keys (rest ++ (done ++ [(encKey kv.1 kv.2, PyVal.int 1)]))).Nodup := by
      rw [← List.append_assoc, dict_keys_append]
      refine List.Nodup.append hndr (List.nodup_singleton _) ?_
      intro a ha hb
      have : a = encKey kv.1 kv.2 := by simpa [Dict.keys] using hb
      exact henckv (this ▸ ha)
    have henc2 : ∀ kv' ∈ rest, encKey kv'.1 kv'.2 ∉
        Dict.keys (rest ++ (done ++ [(encKey kv.1 kv.2, PyVal.int 1)])) := by
      intro kv' h' hmem
      rw [← List.append_assoc, dict_keys_append] at hmem
      rcases List.mem_append.mp hmem with h1 | h1
      · exact henc kv' (List.mem_cons_of_mem kv h') (List.mem_cons_of_mem _ h1)
      · have he : encKey kv'.1 kv'.2 = encKey kv.1 kv.2 := by
          simpa [Dict.keys] using h1
        have hfst : kv'.1 = kv.1 :=
          hinj kv' (List.mem_cons_of_mem kv h') kv (List.mem_cons_self kv rest) he
        have hmem' : kv'.1 ∈ Dict.keys (rest ++ done) := by
          rw [dict_keys_append]
          exact List.mem_append_left _ (List.mem_map_of_mem Prod.fst h')
        exact hk1 (hfst ▸ hmem')
    rw [show Dict.keys (kv :: rest) = kv.1 :: Dict.keys rest from rfl]
    rw [List.foldl_cons, hstep, List.append_assoc]
    rw [ih (done ++ [(encKey kv.1 kv.2, PyVal.int 1)]) hnd2 hv2 henc2 hinj2]
    simp

theorem unsafe_go_enc :
    ∀ (l r : Dict),
      (∀ kv ∈ l, splitIs (encKey kv.1 kv.2) = [kv.1, kv.2.pystr]) →
      (∀ kv ∈ l, kv.2.isStr = true) →
      (Dict.keys l).Nodup →
      (∀ kv ∈ l, kv.1 ∉ Dict.keys r) →
      (l.map (fun kv => encKey kv.1 kv.2)).foldl unsafeStep r = r ++ l := by
  intro l
  induction l with
  | nil => intro r _ _ _ _; simp
  | cons kv rest ih =>
    intro r hsplit hstr hnd hdisj
    have hndc : (kv.1 :: Dict.keys rest).Nodup := hnd
    have hk1 : kv.1 ∉ Dict.keys rest := (List.nodup_cons.mp hndc).1
    have hstep : unsafeStep r (encKey kv.1 kv.2) = r ++ [kv] := by
      unfold unsafeStep
      rw [hsplit kv (List.mem_cons_self kv rest)]
      dsimp only
      rw [pystr_of_isStr (hstr kv (List.mem_cons_self kv rest))]
      rw [dict_set_of_not_contains _ (by
        rw [Bool.eq_false_iff]
        intro hc
        exact hdisj kv (List.mem_cons_self kv rest) (dict_contains_iff.mp hc))]
    have hdisj2 : ∀ kv' ∈ rest, kv'.1 ∉ Dict.keys (r ++ [kv]) := by
      intro kv' h' hmem
      rw [dict_keys_append] at hmem
      rcases List.mem_append.mp hmem with h1 | h1
      · exact hdisj kv' (List.mem_cons_of_mem kv h') h1
      · have : kv'.1 = kv.1 := by simpa [Dict.keys] using h1
        exact hk1 (this ▸ List.mem_map_of_mem Prod.fst h')
    rw [List.map_cons, List.foldl_cons, hstep]
    rw [ih (r ++ [kv]) (fun kv' h' => hsplit kv' (List.mem_cons_of_mem kv h'))
      (fun kv' h' => hstr kv' (List.mem_cons_of_mem kv h'))
      (List.nodup_cons.mp hndc).2 hdisj2]
    simp

/-- C3 counterexample: for `d = {"a_is_b": "c"}` — a string-keyed mapping with
a non-int/bool value — the round trip loses the key entirely: `safe_dict`
produces the key `"a_is_b_is_c"`, whose `split("_is_")` has three parts, so
`unsafe_dict` drops it and returns the empty dict, not `d`. -/
theorem safe_unsafe_roundtrip_counterexample :
    unsafe_dict (safe_dict [(("a_is_b").data, PyVal.str (("c").data))]) = []
      ∧ [(("a_is_b").data, PyVal.str (("c").data))] ≠ ([] : Dict) := by
  constructor
  · decide
  · decide

/-- C3 (amended): if `d` has distinct keys, every value is a string, and for
every entry the encoded key `f"{k}_is_{val}"` splits back on `"_is_"` into
exactly the two parts `k` and `str(val)` (in particular neither the key nor
the value contains the separator), then
`EasyDelState.unsafe_dict (EasyDelState.safe_dict d) = d`. -/
theorem safe_unsafe_roundtrip (d : Dict)
    (hnd : (Dict.keys d).Nodup)
    (hstr : ∀ kv ∈ d, kv.2.isStr = true)
    (hsplit : ∀ kv ∈ d, splitIs (encKey kv.1 kv.2) = [kv.1, kv.2.pystr]) :
    unsafe_dict (safe_dict d) = d := by
  have hv : ∀ kv ∈ d, kv.2.isIntOrBool = false := by
    intro kv hkv
    have := hstr kv hkv
    cases h2 : kv.2 <;> simp_all [PyVal.isStr, PyVal.isIntOrBool]
  have hinj : ∀ kv ∈ d, ∀ kv' ∈ d,
      encKey kv.1 kv.2 = encKey kv'.1 kv'.2 → kv.1 = kv'.1 := by
    intro kv hkv kv' hkv' he
    have h1 := hsplit kv hkv
    rw [he] at h1
    rw [hsplit kv' hkv'] at h1
    injection h1 with hh _
    exact hh.symm
  have henc0 : ∀ kv ∈ d, encKey kv.1 kv.2 ∉ Dict.keys d := by
    intro kv hkv hmem
    obtain ⟨kv', hkv', hfst⟩ := List.mem_map.mp hmem
    have h1 := hsplit kv hkv
    obtain ⟨tail, htail⟩ :=
      splitIs_ext (encKey kv.1 kv.2) kv.1 kv.2.pystr [] (sepIs ++ kv'.2.pystr) h1
    have hx : encKey kv'.1 kv'.2 = encKey kv.1 kv.2 ++ (sepIs ++ kv'.2.pystr) := by
      simp [encKey, hfst, List.append_assoc]
    rw [← hx] at htail
    rw [hsplit kv' hkv'] at htail
    injection htail with hh _
    have hlen := congrArg List.length (hfst.symm.trans hh)
    have hsep : sepIs.length = 4 := rfl
    simp only [encKey, List.length_append] at hlen
    omega
  have hsafe : safe_dict d = d.map (fun kv => (encKey kv.1 kv.2, PyVal.int 1)) := by
    have h := safe_go_spec d [] (by simpa using hnd) hv
      (by intro kv hkv; simpa using henc0 kv hkv) hinj
    simpa [safe_dict] using h
  rw [hsafe]
  unfold unsafe_dict
  have hkeys : Dict.keys (d.map (fun kv => (encKey kv.1 kv.2, PyVal.int 1)))
      = d.map (fun kv => encKey kv.1 kv.2) := by
    simp [Dict.keys, List.map_map, Function.comp]
  rw [hkeys]
  have h := unsafe_go_enc d [] hsplit hstr hnd (by intro kv _; simp [Dict.keys])
  simpa using h

/-- C3 witness: the round trip is the identity on a concrete two-entry
hyperparameter dict with string values free of the separator. -/
theorem safe_unsafe_roundtrip_witness :
    unsafe_dict (safe_dict dC3w) = dC3w :=
  safe_unsafe_roundtrip dC3w (by decide) (by decide) (by decide)
